import Mathlib

/-!
# Board controller of `src/App.jsx`

A shallow embedding of the click / undo / redo / new-game state machine of the
`App` component.  The rules engine (`chess.js`) is an external collaborator: it
is taken as a parameter, a record of the operations the component calls on it.
-/

set_option autoImplicit false

namespace Chess

/-! ## Data model -/

/-- Side colour as the engine reports it: the strings "w" and "b". -/
inductive Color where
  | w
  | b
deriving DecidableEq, Repr

/-- Piece kinds of the engine: "p", "r", "n", "b", "q", "k". -/
inductive PieceSymbol where
  | p
  | r
  | n
  | b
  | q
  | k
deriving DecidableEq, Repr

/-- Piece descriptor returned by the engine's `get`: an object with `type` and `color`. -/
structure Piece where
  type : PieceSymbol
  color : Color
deriving DecidableEq, Repr

/-- Move request object built at line 88: source square, target square and promotion piece.
The fields `from_` and `to_` are the source's `from` and `to`. -/
structure Move where
  from_ : String
  to_ : String
  promotion : String
deriving DecidableEq, Repr

/-- Outcome of the call `gameRef.current.move(move)` of line 89: the call returned a truthy
result object, returned a falsy value, or raised an exception.  Releases 1.x of the engine,
whose query names (`isCheckmate`, `isCheck`, ...) the component uses, raise `Invalid move`
on an illegal move; earlier releases returned `null`. -/
inductive MoveOutcome where
  | accepted
  | rejected
  | threw
deriving DecidableEq, Repr

/-- Operations of the rules engine that the component calls.  `G` is the engine's live state,
`F` the serialized position returned by `fen()`, `B` the grid returned by `board()`.
Mutating calls return the engine state they leave behind: `load` receives the value read from
the history array (`none` stands for JavaScript's `undefined`), `move` returns the outcome of
the call together with the state after the call. -/
structure Engine (G F B : Type) where
  fresh : G
  load : G → Option F → G
  get : G → String → Option Piece
  turn : G → Color
  move : G → Move → MoveOutcome × G
  fen : G → F
  board : G → B
  isCheckmate : G → Bool
  isStalemate : G → Bool
  isDraw : G → Bool
  isCheck : G → Bool

/-- Component state: `gameRef.current` and the six `useState` cells.  `moveCalls` is a ghost
counter, not present in the source, that records how many times the engine's `move` was
invoked. -/
structure State (G F B : Type) where
  game : G
  historyFEN : List F
  pointer : Nat
  selected : Option String
  boardArray : B
  flip : Bool
  status : String
  moveCalls : Nat

variable {G F B : Type}

/-! ## Operations -/

/-- Column letters, line 20. -/
def files : List String := ["a", "b", "c", "d", "e", "f", "g", "h"]

/-- Lines 63-67: the template string of `files[c]` and `8 - r`; an index outside the array
reads `undefined`, which the template prints as such. -/
def coordsToSquare (r c : Nat) : String :=
  let file := (files[c]?).getD "undefined"
  let rank : Int := 8 - (r : Int)
  file ++ toString rank

/-- Lines 135-145. -/
def getStatusText (E : Engine G F B) (g : G) : String :=
  if E.isCheckmate g then
    "Checkmate. " ++ (if E.turn g = Color.w then "Black" else "White") ++ " wins."
  else if E.isStalemate g then "Stalemate."
  else if E.isDraw g then "Draw."
  else if E.isCheck g then
    (if E.turn g = Color.w then "White" else "Black") ++ " to move — in check."
  else (if E.turn g = Color.w then "White" else "Black") ++ " to move."

/-- Lines 53-56. -/
def refreshFromGame (E : Engine G F B) (s : State G F B) : State G F B :=
  { s with boardArray := E.board s.game, status := getStatusText E s.game }

/-- The test `piece && piece.color === gameRef.current.turn()` of lines 75 and 100. -/
def ownPiece (piece : Option Piece) (turn : Color) : Bool :=
  match piece with
  | none => false
  | some p => decide (p.color = turn)

/-- JavaScript truthiness of the `selected` cell: `null` and the empty string are falsy. -/
def truthy (selected : Option String) : Bool :=
  match selected with
  | none => false
  | some x => decide (x ≠ "")

/-- Lines 69-104.  The handler has no `try`: when the call of line 89 raises, the handler
ends there and no state cell is set. -/
def handleSquareClick (E : Engine G F B) (s : State G F B) (r c : Nat) : State G F B :=
  let square := coordsToSquare r c
  let piece := E.get s.game square
  match s.selected with
  | none =>
    if ownPiece piece (E.turn s.game) then { s with selected := some square } else s
  | some sel =>
    if sel = "" then
      if ownPiece piece (E.turn s.game) then { s with selected := some square } else s
    else if sel = square then { s with selected := none }
    else
      let move : Move := { from_ := sel, to_ := square, promotion := "q" }
      let result := E.move s.game move
      match result.1 with
      | MoveOutcome.threw => { s with game := result.2, moveCalls := s.moveCalls + 1 }
      | MoveOutcome.accepted =>
        let newFEN := E.fen result.2
        let newHistory := s.historyFEN.take (s.pointer + 1) ++ [newFEN]
        refreshFromGame E
          { s with game := result.2, historyFEN := newHistory,
                   pointer := newHistory.length - 1, selected := none,
                   moveCalls := s.moveCalls + 1 }
      | MoveOutcome.rejected =>
        if ownPiece piece (E.turn result.2) then
          { s with game := result.2, selected := some square, moveCalls := s.moveCalls + 1 }
        else
          { s with game := result.2, moveCalls := s.moveCalls + 1 }

/-- Lines 106-114. -/
def undo (E : Engine G F B) (s : State G F B) : State G F B :=
  if s.pointer ≤ 0 then s
  else
    let newPointer := s.pointer - 1
    let fen := s.historyFEN[newPointer]?
    refreshFromGame E
      { s with game := E.load s.game fen, pointer := newPointer, selected := none }

/-- Lines 116-124; the comparison is made over the integers, as `length - 1` is `-1` for an
empty array. -/
def redo (E : Engine G F B) (s : State G F B) : State G F B :=
  if (s.pointer : Int) ≥ (s.historyFEN.length : Int) - 1 then s
  else
    let newPointer := s.pointer + 1
    let fen := s.historyFEN[newPointer]?
    refreshFromGame E
      { s with game := E.load s.game fen, pointer := newPointer, selected := none }

/-- Lines 126-133. -/
def newGame (E : Engine G F B) (s : State G F B) : State G F B :=
  let fen := E.fen E.fresh
  refreshFromGame E
    { s with game := E.fresh, historyFEN := [fen], pointer := 0, selected := none }

/-- Lines 44-61: the state after the first render and its mount effect. -/
def init (E : Engine G F B) : State G F B :=
  refreshFromGame E
    { game := E.fresh, historyFEN := [E.fen E.fresh], pointer := 0, selected := none,
      boardArray := E.board E.fresh, flip := false, status := "", moveCalls := 0 }

/-- States reachable from the initial one by clicks, undo, redo and new game. -/
inductive Reachable (E : Engine G F B) : State G F B → Prop where
  | start : Reachable E (init E)
  | click (s : State G F B) (r c : Nat) : Reachable E s → Reachable E (handleSquareClick E s r c)
  | undoStep (s : State G F B) : Reachable E s → Reachable E (undo E s)
  | redoStep (s : State G F B) : Reachable E s → Reachable E (redo E s)
  | newGameStep (s : State G F B) : Reachable E s → Reachable E (newGame E s)

/-- Engine law assumed by the history invariant: loading a position the engine serialized
gives that position back. -/
def LoadFen (E : Engine G F B) : Prop :=
  ∀ e e0 : G, E.fen (E.load e (some (E.fen e0))) = E.fen e0

/-- Engine law: a rejected move, be it a falsy result or an exception, leaves the live state
as it was. -/
def RejectKeeps (E : Engine G F B) : Prop :=
  ∀ (e : G) (m : Move), (E.move e m).1 ≠ MoveOutcome.accepted → (E.move e m).2 = e

/-! ## A concrete engine

`pawnEngine` is a small rules engine used to run the controller on concrete games.  It starts
from the standard initial position and accepts exactly the non-capturing pawn advances (one
step, or two steps from the home rank); on any other attempt its `move` raises, as releases
1.x of the engine do on an illegal move.  The sample games below select e2 and play 1.e4 from
the initial position, on which a full rules engine gives the same answers.  Its serialized
position is the piece placement together with the side to move; its live state also keeps
the list of moves played, which `load`
clears. -/

/-- Serialized position of `pawnEngine`. -/
structure Position where
  placement : List (String × Piece)
  turn : Color
deriving DecidableEq, Repr

/-- Live state of `pawnEngine`. -/
structure PawnGame where
  pos : Position
  played : List Move
deriving DecidableEq, Repr

/-- Standard initial placement. -/
def startPlacement : List (String × Piece) :=
  [("a1", ⟨.r, .w⟩), ("b1", ⟨.n, .w⟩), ("c1", ⟨.b, .w⟩), ("d1", ⟨.q, .w⟩),
   ("e1", ⟨.k, .w⟩), ("f1", ⟨.b, .w⟩), ("g1", ⟨.n, .w⟩), ("h1", ⟨.r, .w⟩),
   ("a2", ⟨.p, .w⟩), ("b2", ⟨.p, .w⟩), ("c2", ⟨.p, .w⟩), ("d2", ⟨.p, .w⟩),
   ("e2", ⟨.p, .w⟩), ("f2", ⟨.p, .w⟩), ("g2", ⟨.p, .w⟩), ("h2", ⟨.p, .w⟩),
   ("a7", ⟨.p, .b⟩), ("b7", ⟨.p, .b⟩), ("c7", ⟨.p, .b⟩), ("d7", ⟨.p, .b⟩),
   ("e7", ⟨.p, .b⟩), ("f7", ⟨.p, .b⟩), ("g7", ⟨.p, .b⟩), ("h7", ⟨.p, .b⟩),
   ("a8", ⟨.r, .b⟩), ("b8", ⟨.n, .b⟩), ("c8", ⟨.b, .b⟩), ("d8", ⟨.q, .b⟩),
   ("e8", ⟨.k, .b⟩), ("f8", ⟨.b, .b⟩), ("g8", ⟨.n, .b⟩), ("h8", ⟨.r, .b⟩)]

/-- Name of the square on file letter `f` and rank `k`. -/
def squareAt (f : Char) (k : Nat) : String := String.mk [f, Char.ofNat (48 + k)]

/-- The other side. -/
def Color.other : Color → Color
  | .w => .b
  | .b => .w

/-- Whether a pawn of colour `col` standing on file `f`, rank `k` may advance to rank `k2` of
the same file in placement `pl`: the target is empty and is one step ahead, or two steps ahead
from the home rank over an empty square. -/
def pawnAdvance (pl : List (String × Piece)) (col : Color) (f : Char) (k k2 : Nat) : Bool :=
  (pl.lookup (squareAt f k2)).isNone &&
  match col with
  | .w => (k2 == k + 1 && k2 ≤ 7) || (k == 2 && k2 == 4 && (pl.lookup (squareAt f 3)).isNone)
  | .b => (k2 + 1 == k && 2 ≤ k2) || (k == 7 && k2 == 5 && (pl.lookup (squareAt f 6)).isNone)

/-- Move attempt of `pawnEngine`: accepted exactly for a pawn of the side to move making a
pawn advance; any other attempt raises and leaves the state as it was. -/
def pawnMove (g : PawnGame) (m : Move) : MoveOutcome × PawnGame :=
  match m.from_.data, m.to_.data with
  | [f, d], [f2, d2] =>
    match g.pos.placement.lookup m.from_ with
    | some pc =>
      if pc.type = PieceSymbol.p ∧ pc.color = g.pos.turn ∧ f = f2 ∧
          pawnAdvance g.pos.placement pc.color f (d.toNat - 48) (d2.toNat - 48) = true then
        (MoveOutcome.accepted,
          { pos := { placement :=
                       (m.to_, pc) :: g.pos.placement.filter (fun e => e.1 != m.from_),
                     turn := g.pos.turn.other },
            played := g.played ++ [m] })
      else (MoveOutcome.threw, g)
    | none => (MoveOutcome.threw, g)
  | _, _ => (MoveOutcome.threw, g)

/-- Fresh game of `pawnEngine`. -/
def pawnFresh : PawnGame :=
  { pos := { placement := startPlacement, turn := Color.w }, played := [] }

/-- The concrete engine. -/
def pawnEngine : Engine PawnGame Position (List (String × Piece)) where
  fresh := pawnFresh
  load := fun g x =>
    match x with
    | some p => { pos := p, played := [] }
    | none => g
  get := fun g sq => g.pos.placement.lookup sq
  turn := fun g => g.pos.turn
  move := pawnMove
  fen := fun g => g.pos
  board := fun g => g.pos.placement
  isCheckmate := fun _ => false
  isStalemate := fun _ => false
  isDraw := fun _ => false
  isCheck := fun _ => false

/-! ## Coordinate mapping -/

/-- Row and column read back from a square name: the proof device for injectivity. -/
def decodeSquare (sq : String) : Nat × Nat :=
  match sq.data with
  | [f, d] => (8 - (d.toNat - 48), f.toNat - 97)
  | _ => (0, 0)

theorem decodeSquare_coordsToSquare (r c : Nat) (hr : r < 8) (hc : c < 8) :
    decodeSquare (coordsToSquare r c) = (r, c) := by
  interval_cases r <;> interval_cases c <;> decide

theorem coordsToSquare_ne_empty (r c : Nat) : coordsToSquare r c ≠ "" := by
  intro h
  have hlen := congrArg String.length h
  simp only [coordsToSquare, String.length_append] at hlen
  have hfile : 1 ≤ ((files[c]?).getD "undefined").length := by
    by_cases hc : c < 8
    · interval_cases c <;> decide
    · have : files[c]? = none := by
        apply List.getElem?_eq_none
        simp only [files, List.length_cons, List.length_nil]
        omega
      rw [this]
      decide
  have h0 : ("" : String).length = 0 := rfl
  omega

/-! ## Unfolding lemmas for the handlers -/

@[simp] theorem refreshFromGame_game (E : Engine G F B) (s : State G F B) :
    (refreshFromGame E s).game = s.game := rfl

@[simp] theorem refreshFromGame_historyFEN (E : Engine G F B) (s : State G F B) :
    (refreshFromGame E s).historyFEN = s.historyFEN := rfl

@[simp] theorem refreshFromGame_pointer (E : Engine G F B) (s : State G F B) :
    (refreshFromGame E s).pointer = s.pointer := rfl

@[simp] theorem refreshFromGame_selected (E : Engine G F B) (s : State G F B) :
    (refreshFromGame E s).selected = s.selected := rfl

@[simp] theorem refreshFromGame_moveCalls (E : Engine G F B) (s : State G F B) :
    (refreshFromGame E s).moveCalls = s.moveCalls := rfl

theorem undo_of_pos (E : Engine G F B) (s : State G F B) (h : s.pointer ≠ 0) :
    undo E s = refreshFromGame E
      { s with game := E.load s.game (s.historyFEN[s.pointer - 1]?),
               pointer := s.pointer - 1, selected := none } := by
  have : ¬ s.pointer ≤ 0 := by omega
  simp [undo, this]

theorem undo_of_zero (E : Engine G F B) (s : State G F B) (h : s.pointer = 0) :
    undo E s = s := by
  simp [undo, h]

theorem redo_of_lt (E : Engine G F B) (s : State G F B)
    (h : s.pointer + 1 < s.historyFEN.length) :
    redo E s = refreshFromGame E
      { s with game := E.load s.game (s.historyFEN[s.pointer + 1]?),
               pointer := s.pointer + 1, selected := none } := by
  have : ¬ ((s.pointer : Int) ≥ (s.historyFEN.length : Int) - 1) := by omega
  simp [redo, this]

theorem redo_of_ge (E : Engine G F B) (s : State G F B)
    (h : s.historyFEN.length ≤ s.pointer + 1) :
    redo E s = s := by
  have : (s.pointer : Int) ≥ (s.historyFEN.length : Int) - 1 := by omega
  simp [redo, this]

/-- Click with nothing selected: select the square when it holds a piece of the side to
move, otherwise do nothing. -/
theorem click_of_none (E : Engine G F B) (s : State G F B) (r c : Nat)
    (h : s.selected = none) :
    handleSquareClick E s r c =
      if ownPiece (E.get s.game (coordsToSquare r c)) (E.turn s.game) then
        { s with selected := some (coordsToSquare r c) }
      else s := by
  simp [handleSquareClick, h]

/-- Click on the selected square: deselect. -/
theorem click_of_same (E : Engine G F B) (s : State G F B) (r c : Nat)
    (h : s.selected = some (coordsToSquare r c)) :
    handleSquareClick E s r c = { s with selected := none } := by
  simp [handleSquareClick, h, coordsToSquare_ne_empty]

/-- Click on another square while `sel` is selected and the engine accepts the move. -/
theorem click_of_accept (E : Engine G F B) (s : State G F B) (r c : Nat) (sel : String)
    (h : s.selected = some sel) (hne : sel ≠ "") (hd : coordsToSquare r c ≠ sel)
    (hacc : (E.move s.game ⟨sel, coordsToSquare r c, "q"⟩).1 = MoveOutcome.accepted) :
    handleSquareClick E s r c = refreshFromGame E
      { s with game := (E.move s.game ⟨sel, coordsToSquare r c, "q"⟩).2,
               historyFEN := s.historyFEN.take (s.pointer + 1) ++
                 [E.fen (E.move s.game ⟨sel, coordsToSquare r c, "q"⟩).2],
               pointer := (s.historyFEN.take (s.pointer + 1) ++
                 [E.fen (E.move s.game ⟨sel, coordsToSquare r c, "q"⟩).2]).length - 1,
               selected := none,
               moveCalls := s.moveCalls + 1 } := by
  have hd2 : ¬ sel = coordsToSquare r c := fun e => hd e.symm
  simp [handleSquareClick, h, hne, hd2, hacc]

/-- Click on another square while `sel` is selected and the move call raises. -/
theorem click_of_throw (E : Engine G F B) (s : State G F B) (r c : Nat) (sel : String)
    (h : s.selected = some sel) (hne : sel ≠ "") (hd : coordsToSquare r c ≠ sel)
    (hthrow : (E.move s.game ⟨sel, coordsToSquare r c, "q"⟩).1 = MoveOutcome.threw) :
    handleSquareClick E s r c =
      { s with game := (E.move s.game ⟨sel, coordsToSquare r c, "q"⟩).2,
               moveCalls := s.moveCalls + 1 } := by
  have hd2 : ¬ sel = coordsToSquare r c := fun e => hd e.symm
  simp [handleSquareClick, h, hne, hd2, hthrow]

/-- Click on another square while `sel` is selected and the move call returns a falsy
result. -/
theorem click_of_reject (E : Engine G F B) (s : State G F B) (r c : Nat) (sel : String)
    (h : s.selected = some sel) (hne : sel ≠ "") (hd : coordsToSquare r c ≠ sel)
    (hrej : (E.move s.game ⟨sel, coordsToSquare r c, "q"⟩).1 = MoveOutcome.rejected) :
    handleSquareClick E s r c =
      { s with game := (E.move s.game ⟨sel, coordsToSquare r c, "q"⟩).2,
               selected :=
                 if ownPiece (E.get s.game (coordsToSquare r c))
                      (E.turn (E.move s.game ⟨sel, coordsToSquare r c, "q"⟩).2)
                 then some (coordsToSquare r c) else some sel,
               moveCalls := s.moveCalls + 1 } := by
  have hd2 : ¬ sel = coordsToSquare r c := fun e => hd e.symm
  simp only [handleSquareClick, h, hne, hd2, hrej, if_false]
  split <;> simp [h]

/-! ## Invariants of the reachable states -/

/-- History invariant: the pointer is a valid index, the snapshot under it is the engine's
serialized live position, and every snapshot was serialized by the engine. -/
def HistoryInv (E : Engine G F B) (s : State G F B) : Prop :=
  s.pointer < s.historyFEN.length ∧
  s.historyFEN[s.pointer]? = some (E.fen s.game) ∧
  ∀ x ∈ s.historyFEN, ∃ e : G, E.fen e = x

/-- Selection invariant: a selected square holds a piece of the side to move. -/
def SelectionInv (E : Engine G F B) (s : State G F B) : Prop :=
  ∀ sq : String, s.selected = some sq →
    ∃ p : Piece, E.get s.game sq = some p ∧ p.color = E.turn s.game

theorem ownPiece_iff (piece : Option Piece) (t : Color) :
    ownPiece piece t = true ↔ ∃ p : Piece, piece = some p ∧ p.color = t := by
  cases piece with
  | none => simp [ownPiece]
  | some p => simp [ownPiece]

theorem historyInv_init (E : Engine G F B) : HistoryInv E (init E) := by
  refine ⟨by simp [init], by simp [init], ?_⟩
  intro x hx
  simp only [init, refreshFromGame_historyFEN, List.mem_singleton] at hx
  exact ⟨E.fresh, hx.symm⟩

theorem historyInv_newGame (E : Engine G F B) (s : State G F B) :
    HistoryInv E (newGame E s) := by
  refine ⟨by simp [newGame], by simp [newGame], ?_⟩
  intro x hx
  simp only [newGame, refreshFromGame_historyFEN, List.mem_singleton] at hx
  exact ⟨E.fresh, hx.symm⟩

theorem historyInv_load (E : Engine G F B) (hload : LoadFen E) (s : State G F B)
    (hall : ∀ x ∈ s.historyFEN, ∃ e : G, E.fen e = x) (i : Nat)
    (hi : i < s.historyFEN.length) :
    s.historyFEN[i]? = some (E.fen (E.load s.game (s.historyFEN[i]?))) := by
  obtain ⟨e, he⟩ := hall (s.historyFEN[i]) (List.getElem_mem hi)
  rw [List.getElem?_eq_getElem hi, ← he, hload]

theorem historyInv_undo (E : Engine G F B) (hload : LoadFen E) (s : State G F B)
    (h : HistoryInv E s) : HistoryInv E (undo E s) := by
  obtain ⟨hp, hcur, hall⟩ := h
  by_cases h0 : s.pointer = 0
  · rw [undo_of_zero E s h0]; exact ⟨hp, hcur, hall⟩
  · rw [undo_of_pos E s h0]
    refine ⟨?_, ?_, hall⟩
    · show s.pointer - 1 < s.historyFEN.length
      omega
    · exact historyInv_load E hload s hall (s.pointer - 1) (by omega)

theorem historyInv_redo (E : Engine G F B) (hload : LoadFen E) (s : State G F B)
    (h : HistoryInv E s) : HistoryInv E (redo E s) := by
  obtain ⟨hp, hcur, hall⟩ := h
  by_cases h0 : s.pointer + 1 < s.historyFEN.length
  · rw [redo_of_lt E s h0]
    exact ⟨h0, historyInv_load E hload s hall (s.pointer + 1) h0, hall⟩
  · rw [redo_of_ge E s (by omega)]; exact ⟨hp, hcur, hall⟩

theorem historyInv_click (E : Engine G F B) (hrej : RejectKeeps E) (s : State G F B)
    (r c : Nat) (h : HistoryInv E s) : HistoryInv E (handleSquareClick E s r c) := by
  obtain ⟨hp, hcur, hall⟩ := h
  cases hsel : s.selected with
  | none =>
    rw [click_of_none E s r c hsel]
    split
    · exact ⟨hp, hcur, hall⟩
    · exact ⟨hp, hcur, hall⟩
  | some sel =>
    by_cases hne : sel = ""
    · have : handleSquareClick E s r c =
          if ownPiece (E.get s.game (coordsToSquare r c)) (E.turn s.game) then
            { s with selected := some (coordsToSquare r c) }
          else s := by
        simp [handleSquareClick, hsel, hne]
      rw [this]
      split
      · exact ⟨hp, hcur, hall⟩
      · exact ⟨hp, hcur, hall⟩
    · by_cases hd : coordsToSquare r c = sel
      · rw [click_of_same E s r c (by rw [hsel, hd])]; exact ⟨hp, hcur, hall⟩
      · cases hm : (E.move s.game ⟨sel, coordsToSquare r c, "q"⟩).1 with
        | accepted =>
          rw [click_of_accept E s r c sel hsel hne hd hm]
          have hlen : (s.historyFEN.take (s.pointer + 1)).length = s.pointer + 1 := by
            rw [List.length_take]; omega
          refine ⟨?_, ?_, ?_⟩
          · simp only [refreshFromGame_pointer, refreshFromGame_historyFEN,
              List.length_append, List.length_singleton, hlen]
            omega
          · simp only [refreshFromGame_pointer, refreshFromGame_historyFEN,
              refreshFromGame_game, List.length_append, List.length_singleton, hlen,
              Nat.add_sub_cancel]
            rw [List.getElem?_append_right (by omega)]
            simp [hlen]
          · intro x hx
            simp only [refreshFromGame_historyFEN, List.mem_append, List.mem_singleton] at hx
            rcases hx with hx | hx
            · exact hall x (List.mem_of_mem_take hx)
            · exact ⟨_, hx.symm⟩
        | rejected =>
          rw [click_of_reject E s r c sel hsel hne hd hm]
          have hk := hrej s.game ⟨sel, coordsToSquare r c, "q"⟩ (by rw [hm]; decide)
          refine ⟨hp, ?_, hall⟩
          show s.historyFEN[s.pointer]? = some (E.fen _)
          rw [hk]; exact hcur
        | threw =>
          rw [click_of_throw E s r c sel hsel hne hd hm]
          have hk := hrej s.game ⟨sel, coordsToSquare r c, "q"⟩ (by rw [hm]; decide)
          refine ⟨hp, ?_, hall⟩
          show s.historyFEN[s.pointer]? = some (E.fen _)
          rw [hk]; exact hcur

theorem reachable_historyInv (E : Engine G F B) (hload : LoadFen E) (hrej : RejectKeeps E)
    (s : State G F B) (h : Reachable E s) : HistoryInv E s := by
  induction h with
  | start => exact historyInv_init E
  | click s r c _ ih => exact historyInv_click E hrej s r c ih
  | undoStep s _ ih => exact historyInv_undo E hload s ih
  | redoStep s _ ih => exact historyInv_redo E hload s ih
  | newGameStep s _ _ => exact historyInv_newGame E s

theorem selectionInv_click (E : Engine G F B) (hrej : RejectKeeps E) (s : State G F B)
    (r c : Nat) (h : SelectionInv E s) : SelectionInv E (handleSquareClick E s r c) := by
  have hfirst : SelectionInv E
      (if ownPiece (E.get s.game (coordsToSquare r c)) (E.turn s.game) then
        { s with selected := some (coordsToSquare r c) }
      else s) := by
    split
    · next hown =>
      intro sq hsq
      have hsq2 : coordsToSquare r c = sq := by simpa using hsq
      rw [← hsq2]
      exact (ownPiece_iff _ _).1 hown
    · exact h
  cases hsel : s.selected with
  | none => rw [click_of_none E s r c hsel]; exact hfirst
  | some sel =>
    by_cases hne : sel = ""
    · have : handleSquareClick E s r c =
          if ownPiece (E.get s.game (coordsToSquare r c)) (E.turn s.game) then
            { s with selected := some (coordsToSquare r c) }
          else s := by
        simp [handleSquareClick, hsel, hne]
      rw [this]; exact hfirst
    · by_cases hd : coordsToSquare r c = sel
      · rw [click_of_same E s r c (by rw [hsel, hd])]
        intro sq hsq
        simp at hsq
      · cases hm : (E.move s.game ⟨sel, coordsToSquare r c, "q"⟩).1 with
        | accepted =>
          rw [click_of_accept E s r c sel hsel hne hd hm]
          intro sq hsq
          simp at hsq
        | threw =>
          rw [click_of_throw E s r c sel hsel hne hd hm]
          have hk := hrej s.game ⟨sel, coordsToSquare r c, "q"⟩ (by rw [hm]; decide)
          rw [hk]
          intro sq hsq
          exact h sq hsq
        | rejected =>
          rw [click_of_reject E s r c sel hsel hne hd hm]
          have hk := hrej s.game ⟨sel, coordsToSquare r c, "q"⟩ (by rw [hm]; decide)
          rw [hk]
          intro sq hsq
          show ∃ p : Piece, E.get s.game sq = some p ∧ p.color = E.turn s.game
          by_cases hown : ownPiece (E.get s.game (coordsToSquare r c)) (E.turn s.game) = true
          · have hsq2 : coordsToSquare r c = sq := by simpa [hown] using hsq
            rw [← hsq2]
            exact (ownPiece_iff _ _).1 hown
          · have hsq2 : sel = sq := by simpa [hown] using hsq
            exact h sq (by rw [hsel, hsq2])

theorem selectionInv_of_none (E : Engine G F B) (s : State G F B) (h : s.selected = none) :
    SelectionInv E s := by
  intro sq hsq
  rw [h] at hsq
  cases hsq

theorem selectionInv_undo (E : Engine G F B) (s : State G F B) (h : SelectionInv E s) :
    SelectionInv E (undo E s) := by
  by_cases h0 : s.pointer = 0
  · rw [undo_of_zero E s h0]; exact h
  · rw [undo_of_pos E s h0]; exact selectionInv_of_none E _ rfl

theorem selectionInv_redo (E : Engine G F B) (s : State G F B) (h : SelectionInv E s) :
    SelectionInv E (redo E s) := by
  by_cases h0 : s.pointer + 1 < s.historyFEN.length
  · rw [redo_of_lt E s h0]; exact selectionInv_of_none E _ rfl
  · rw [redo_of_ge E s (by omega)]; exact h

theorem reachable_selectionInv (E : Engine G F B) (hrej : RejectKeeps E)
    (s : State G F B) (h : Reachable E s) : SelectionInv E s := by
  induction h with
  | start => exact selectionInv_of_none E _ rfl
  | click s r c _ ih => exact selectionInv_click E hrej s r c ih
  | undoStep s _ ih => exact selectionInv_undo E s ih
  | redoStep s _ ih => exact selectionInv_redo E s ih
  | newGameStep s _ _ => exact selectionInv_of_none E _ rfl

/-! ## Laws and sample games of the concrete engine -/

theorem pawnEngine_loadFen : LoadFen pawnEngine := by
  intro e e0
  rfl

theorem pawnMove_cases (g : PawnGame) (m : Move) :
    (pawnMove g m).1 = MoveOutcome.accepted ∨ pawnMove g m = (MoveOutcome.threw, g) := by
  unfold pawnMove
  split
  · split
    · split
      · left; rfl
      · right; rfl
    · right; rfl
  · right; rfl

theorem pawnEngine_rejectKeeps : RejectKeeps pawnEngine := by
  intro e m h
  change (pawnMove e m).1 ≠ MoveOutcome.accepted at h
  change (pawnMove e m).2 = e
  rcases pawnMove_cases e m with h1 | h1
  · exact absurd h1 h
  · rw [h1]

/-- Fresh game with the pawn on e2 selected (click on row 6, column 4). -/
def selectedE2 : State PawnGame Position (List (String × Piece)) :=
  handleSquareClick pawnEngine (init pawnEngine) 6 4

/-- Game after 1.e4: e2 selected, then a click on e4 (row 4, column 4). -/
def afterE4 : State PawnGame Position (List (String × Piece)) :=
  handleSquareClick pawnEngine selectedE2 4 4

/-- Game after 1.e4 and one undo: back on the initial position, with one snapshot ahead. -/
def afterE4Undone : State PawnGame Position (List (String × Piece)) :=
  undo pawnEngine afterE4

theorem reachable_selectedE2 : Reachable pawnEngine selectedE2 :=
  Reachable.click _ 6 4 Reachable.start

theorem reachable_afterE4 : Reachable pawnEngine afterE4 :=
  Reachable.click _ 4 4 reachable_selectedE2

theorem reachable_afterE4Undone : Reachable pawnEngine afterE4Undone :=
  Reachable.undoStep _ reachable_afterE4

/-! ## History invariant (C1) -/

/-- C1: in every state reachable from the initial one by clicks, undo, redo and new game,
`historyFEN` is non-empty, `pointer` is a valid index (`0 ≤ pointer ≤ length - 1`) and the
snapshot under the pointer is the engine's current `fen()`, for an engine whose `fen()`
after `load(x)` returns `x` on the positions it serialized and whose rejected moves leave it
unchanged. -/
theorem reachable_history_pointer (E : Engine G F B) (hload : LoadFen E)
    (hrej : RejectKeeps E) (s : State G F B) (h : Reachable E s) :
    s.historyFEN ≠ [] ∧
    (0 : Int) ≤ (s.pointer : Int) ∧
    (s.pointer : Int) ≤ (s.historyFEN.length : Int) - 1 ∧
    s.historyFEN[s.pointer]? = some (E.fen s.game) := by
  obtain ⟨hp, hcur, _⟩ := reachable_historyInv E hload hrej s h
  refine ⟨?_, by omega, by omega, hcur⟩
  intro hnil
  rw [hnil] at hp
  simp at hp

theorem reachable_history_pointer_witness :
    LoadFen pawnEngine ∧ RejectKeeps pawnEngine ∧ Reachable pawnEngine afterE4Undone ∧
    afterE4Undone.historyFEN ≠ [] ∧
    (0 : Int) ≤ (afterE4Undone.pointer : Int) ∧
    (afterE4Undone.pointer : Int) ≤ (afterE4Undone.historyFEN.length : Int) - 1 ∧
    afterE4Undone.historyFEN[afterE4Undone.pointer]? =
      some (pawnEngine.fen afterE4Undone.game) :=
  ⟨pawnEngine_loadFen, pawnEngine_rejectKeeps, reachable_afterE4Undone,
    reachable_history_pointer pawnEngine pawnEngine_loadFen pawnEngine_rejectKeeps
      afterE4Undone reachable_afterE4Undone⟩

/-! ## Selection invariant (C10) -/

/-- C10: in every reachable state a non-empty selection denotes a movable piece: if
`selected` is `sq`, the engine's live position has a piece on `sq` whose colour is the side
to move, for an engine whose rejected moves leave it unchanged. -/
theorem reachable_selection_movable (E : Engine G F B) (hrej : RejectKeeps E)
    (s : State G F B) (h : Reachable E s) (sq : String) (hsel : s.selected = some sq) :
    ∃ p : Piece, E.get s.game sq = some p ∧ p.color = E.turn s.game :=
  reachable_selectionInv E hrej s h sq hsel

theorem reachable_selection_movable_witness :
    RejectKeeps pawnEngine ∧ Reachable pawnEngine selectedE2 ∧
    selectedE2.selected = some "e2" ∧
    ∃ p : Piece, pawnEngine.get selectedE2.game "e2" = some p ∧
      p.color = pawnEngine.turn selectedE2.game :=
  ⟨pawnEngine_rejectKeeps, reachable_selectedE2, by decide,
    reachable_selection_movable pawnEngine pawnEngine_rejectKeeps selectedE2
      reachable_selectedE2 "e2" (by decide)⟩

/-! ## Undo followed by redo (C3) -/

/-- C3, as stated, fails: after 1.e4 and one undo the state has pointer 0 and two snapshots;
there `undo()` returns early and `redo()` then advances, so the pair ends on pointer 1 and on
the position after 1.e4 instead of restoring pointer 0 and the initial position. -/
theorem undo_redo_at_start_advances :
    LoadFen pawnEngine ∧ RejectKeeps pawnEngine ∧ Reachable pawnEngine afterE4Undone ∧
    afterE4Undone.pointer = 0 ∧ afterE4Undone.historyFEN.length = 2 ∧
    (redo pawnEngine (undo pawnEngine afterE4Undone)).pointer = 1 ∧
    (redo pawnEngine (undo pawnEngine afterE4Undone)).pointer ≠ afterE4Undone.pointer ∧
    pawnEngine.fen (redo pawnEngine (undo pawnEngine afterE4Undone)).game ≠
      pawnEngine.fen afterE4Undone.game :=
  ⟨pawnEngine_loadFen, pawnEngine_rejectKeeps, reachable_afterE4Undone,
    by decide, by decide, by decide, by decide, by decide⟩

/-- C3, amended: for every reachable state in which `undo()` takes effect (pointer above
0), or whose history holds a single snapshot, `undo()` followed by `redo()` restores the
pre-undo `fen()` of the engine and the pre-undo pointer. -/
theorem undo_redo_restores (E : Engine G F B) (hload : LoadFen E) (hrej : RejectKeeps E)
    (s : State G F B) (h : Reachable E s)
    (hp : s.pointer ≠ 0 ∨ s.historyFEN.length = 1) :
    E.fen (redo E (undo E s)).game = E.fen s.game ∧
    (redo E (undo E s)).pointer = s.pointer := by
  obtain ⟨hlt, hcur, _⟩ := reachable_historyInv E hload hrej s h
  by_cases h0 : s.pointer = 0
  · have hlen : s.historyFEN.length = 1 := by
      rcases hp with hp | hp
      · exact absurd h0 hp
      · exact hp
    rw [undo_of_zero E s h0, redo_of_ge E s (by omega)]
    exact ⟨rfl, rfl⟩
  · rw [undo_of_pos E s h0]
    have hback : s.pointer - 1 + 1 = s.pointer := by omega
    rw [redo_of_lt E _ (by
      show s.pointer - 1 + 1 < s.historyFEN.length
      omega)]
    refine ⟨?_, hback⟩
    show E.fen (E.load _ (s.historyFEN[s.pointer - 1 + 1]?)) = E.fen s.game
    rw [hback, hcur, hload]

theorem undo_redo_restores_witness :
    LoadFen pawnEngine ∧ RejectKeeps pawnEngine ∧ Reachable pawnEngine afterE4 ∧
    (afterE4.pointer ≠ 0 ∨ afterE4.historyFEN.length = 1) ∧
    pawnEngine.fen (redo pawnEngine (undo pawnEngine afterE4)).game =
      pawnEngine.fen afterE4.game ∧
    (redo pawnEngine (undo pawnEngine afterE4)).pointer = afterE4.pointer :=
  ⟨pawnEngine_loadFen, pawnEngine_rejectKeeps, reachable_afterE4, Or.inl (by decide),
    undo_redo_restores pawnEngine pawnEngine_loadFen pawnEngine_rejectKeeps afterE4
      reachable_afterE4 (Or.inl (by decide))⟩

/-! ## Accepted move (C2) -/

/-- C2: with `sel` selected (a non-empty string, as every square name is: line 74 treats the
empty string like `null`), a click on another square whose move the engine accepts makes
`historyFEN` the first `pointer + 1` old snapshots followed by the engine's new `fen()` and
puts `pointer` on the last index.  When the old pointer is a valid index, the new length is
old pointer + 2, the new pointer is old pointer + 1, indices up to the old pointer are
unchanged and nothing of the old history stays after it.  From a fresh game (one snapshot,
pointer 0) the length becomes 2 and the pointer 1. -/
theorem click_accepted_truncates (E : Engine G F B) (s : State G F B) (r c : Nat)
    (sel : String) (hsel : s.selected = some sel) (hne : sel ≠ "")
    (hd : coordsToSquare r c ≠ sel)
    (hacc : (E.move s.game ⟨sel, coordsToSquare r c, "q"⟩).1 = MoveOutcome.accepted) :
    (handleSquareClick E s r c).game = (E.move s.game ⟨sel, coordsToSquare r c, "q"⟩).2 ∧
    (handleSquareClick E s r c).historyFEN =
      s.historyFEN.take (s.pointer + 1) ++ [E.fen (handleSquareClick E s r c).game] ∧
    (handleSquareClick E s r c).pointer = (handleSquareClick E s r c).historyFEN.length - 1 ∧
    (s.pointer < s.historyFEN.length →
      (handleSquareClick E s r c).historyFEN.length = s.pointer + 2 ∧
      (handleSquareClick E s r c).pointer = s.pointer + 1 ∧
      (∀ i : Nat, i ≤ s.pointer →
        (handleSquareClick E s r c).historyFEN[i]? = s.historyFEN[i]?) ∧
      (handleSquareClick E s r c).historyFEN[s.pointer + 1]? =
        some (E.fen (handleSquareClick E s r c).game) ∧
      (∀ i : Nat, s.pointer + 1 < i → (handleSquareClick E s r c).historyFEN[i]? = none)) ∧
    (s.historyFEN.length = 1 → s.pointer = 0 →
      (handleSquareClick E s r c).historyFEN.length = 2 ∧
      (handleSquareClick E s r c).pointer = 1) := by
  rw [click_of_accept E s r c sel hsel hne hd hacc]
  simp only [refreshFromGame_game, refreshFromGame_historyFEN, refreshFromGame_pointer]
  have hvalid : s.pointer < s.historyFEN.length →
      (s.historyFEN.take (s.pointer + 1)).length = s.pointer + 1 := by
    intro hv
    rw [List.length_take]; omega
  refine ⟨trivial, trivial, trivial, ?_, ?_⟩
  · intro hv
    have hlen := hvalid hv
    refine ⟨?_, ?_, ?_, ?_, ?_⟩
    · rw [List.length_append, hlen]; rfl
    · rw [List.length_append, hlen]; rfl
    · intro i hi
      rw [List.getElem?_append_left (by omega), List.getElem?_take_of_lt (by omega)]
    · rw [List.getElem?_append_right (by omega), hlen]
      simp
    · intro i hi
      apply List.getElem?_eq_none
      rw [List.length_append, hlen]
      simp only [List.length_singleton]
      omega
  · intro h1 h0
    have hlen := hvalid (by omega)
    rw [List.length_append, hlen, h0]
    exact ⟨rfl, rfl⟩

theorem click_accepted_truncates_witness :
    selectedE2.selected = some "e2" ∧ coordsToSquare 4 4 = "e4" ∧
    (pawnEngine.move selectedE2.game ⟨"e2", "e4", "q"⟩).1 = MoveOutcome.accepted ∧
    selectedE2.historyFEN.length = 1 ∧ selectedE2.pointer = 0 ∧
    (handleSquareClick pawnEngine selectedE2 4 4).historyFEN.length = 2 ∧
    (handleSquareClick pawnEngine selectedE2 4 4).pointer = 1 :=
  ⟨by decide, by decide, by decide, by decide, by decide,
    (click_accepted_truncates pawnEngine selectedE2 4 4 "e2" (by decide) (by decide)
      (by decide) (by decide)).2.2.2.2 (by decide) (by decide)⟩

/-! ## Selection after undo, redo and new game (C4) -/

/-- C4, as stated, fails: in a fresh game with e2 selected the pointer is 0 and is also the
last index, so `undo()` and `redo()` both return early and the selection stays on e2. -/
theorem undo_redo_keep_selection_at_bounds :
    Reachable pawnEngine selectedE2 ∧
    selectedE2.pointer = 0 ∧ selectedE2.historyFEN.length = 1 ∧
    selectedE2.selected = some "e2" ∧
    (undo pawnEngine selectedE2).selected = some "e2" ∧
    (redo pawnEngine selectedE2).selected = some "e2" ∧
    (undo pawnEngine selectedE2).selected ≠ none ∧
    (redo pawnEngine selectedE2).selected ≠ none :=
  ⟨reachable_selectedE2, by decide, by decide, by decide, by decide, by decide, by decide,
    by decide⟩

/-- C4, amended: `newGame()` always leaves `selected` empty; `undo()` does when the pointer
is above 0 and `redo()` does when the pointer is below the last index; at those bounds the
handler returns early and the whole state, selection included, is left as it was. -/
theorem selection_cleared_when_effective (E : Engine G F B) (s : State G F B) :
    (newGame E s).selected = none ∧
    (s.pointer ≠ 0 → (undo E s).selected = none) ∧
    ((s.pointer : Int) < (s.historyFEN.length : Int) - 1 → (redo E s).selected = none) ∧
    (s.pointer = 0 → undo E s = s) ∧
    ((s.pointer : Int) ≥ (s.historyFEN.length : Int) - 1 → redo E s = s) := by
  refine ⟨rfl, ?_, ?_, ?_, ?_⟩
  · intro h; rw [undo_of_pos E s h]; rfl
  · intro h; rw [redo_of_lt E s (by omega)]; rfl
  · intro h; exact undo_of_zero E s h
  · intro h; exact redo_of_ge E s (by omega)

theorem selection_cleared_when_effective_witness :
    (newGame pawnEngine selectedE2).selected = none ∧
    afterE4.pointer ≠ 0 ∧ (undo pawnEngine afterE4).selected = none ∧
    (afterE4Undone.pointer : Int) < (afterE4Undone.historyFEN.length : Int) - 1 ∧
    (redo pawnEngine afterE4Undone).selected = none :=
  ⟨(selection_cleared_when_effective pawnEngine selectedE2).1,
    by decide,
    (selection_cleared_when_effective pawnEngine afterE4).2.1 (by decide),
    by decide,
    (selection_cleared_when_effective pawnEngine afterE4Undone).2.2.1 (by decide)⟩

/-! ## Undo and redo move the pointer only (C5) -/

/-- C5: `undo()` and `redo()` never change `historyFEN`; `undo()` at pointer 0 and `redo()`
at pointer `length - 1` leave the state unchanged; otherwise, `undo()` sets the pointer to
`pointer - 1` and `redo()`, the pointer being a valid index, sets it to `pointer + 1`, and
the engine is the result of `load` on the snapshot at the new pointer, which exists when the
old pointer is a valid index. -/
theorem undo_redo_move_pointer_only (E : Engine G F B) (s : State G F B) :
    (undo E s).historyFEN = s.historyFEN ∧
    (redo E s).historyFEN = s.historyFEN ∧
    (s.pointer = 0 → undo E s = s) ∧
    ((s.pointer : Int) = (s.historyFEN.length : Int) - 1 → redo E s = s) ∧
    (s.pointer ≠ 0 →
      (undo E s).pointer = s.pointer - 1 ∧
      (undo E s).game = E.load s.game (s.historyFEN[(undo E s).pointer]?) ∧
      (s.pointer < s.historyFEN.length →
        ∃ x : F, s.historyFEN[(undo E s).pointer]? = some x)) ∧
    (s.pointer < s.historyFEN.length →
      (s.pointer : Int) ≠ (s.historyFEN.length : Int) - 1 →
      (redo E s).pointer = s.pointer + 1 ∧
      (redo E s).game = E.load s.game (s.historyFEN[(redo E s).pointer]?) ∧
      ∃ x : F, s.historyFEN[(redo E s).pointer]? = some x) := by
  refine ⟨?_, ?_, ?_, ?_, ?_, ?_⟩
  · by_cases h : s.pointer = 0
    · rw [undo_of_zero E s h]
    · rw [undo_of_pos E s h]; rfl
  · by_cases h : s.pointer + 1 < s.historyFEN.length
    · rw [redo_of_lt E s h]; rfl
    · rw [redo_of_ge E s (by omega)]
  · intro h; exact undo_of_zero E s h
  · intro h; exact redo_of_ge E s (by omega)
  · intro h
    rw [undo_of_pos E s h]
    refine ⟨rfl, rfl, ?_⟩
    intro hv
    have hlt : s.pointer - 1 < s.historyFEN.length := by omega
    exact ⟨s.historyFEN[s.pointer - 1], List.getElem?_eq_getElem hlt⟩
  · intro hv hne
    have hlt : s.pointer + 1 < s.historyFEN.length := by omega
    rw [redo_of_lt E s hlt]
    exact ⟨rfl, rfl, s.historyFEN[s.pointer + 1], List.getElem?_eq_getElem hlt⟩

theorem undo_redo_move_pointer_only_witness :
    afterE4.pointer = 1 ∧ (undo pawnEngine afterE4).pointer = 0 ∧
    (undo pawnEngine afterE4).historyFEN = afterE4.historyFEN ∧
    afterE4Undone.pointer = 0 ∧ afterE4Undone.historyFEN.length = 2 ∧
    (redo pawnEngine afterE4Undone).pointer = 1 ∧
    undo pawnEngine afterE4Undone = afterE4Undone ∧
    redo pawnEngine afterE4 = afterE4 :=
  ⟨by decide,
    ((undo_redo_move_pointer_only pawnEngine afterE4).2.2.2.2.1 (by decide)).1,
    (undo_redo_move_pointer_only pawnEngine afterE4).1,
    by decide, by decide,
    ((undo_redo_move_pointer_only pawnEngine afterE4Undone).2.2.2.2.2 (by decide)
      (by decide)).1,
    (undo_redo_move_pointer_only pawnEngine afterE4Undone).2.2.1 (by decide),
    (undo_redo_move_pointer_only pawnEngine afterE4).2.2.2.1 (by decide)⟩

/-! ## Rejected move (C6) -/

/-- C6, at the failing input: fresh game, e2 selected, click on d2 (row 6, column 3).  The
move e2-d2 is illegal and d2 holds a white pawn with White to move, so the selection should
become d2 (lines 99-101).  The move call of line 89 raises instead, the handler ends there,
and the selection stays e2; `historyFEN` and `pointer` are unchanged. -/
theorem click_rejected_throws_keeps_selection :
    selectedE2.selected = some "e2" ∧ coordsToSquare 6 3 = "d2" ∧
    (pawnEngine.move selectedE2.game ⟨"e2", "d2", "q"⟩).1 = MoveOutcome.threw ∧
    ownPiece (pawnEngine.get selectedE2.game "d2") (pawnEngine.turn selectedE2.game) = true ∧
    (handleSquareClick pawnEngine selectedE2 6 3).selected = some "e2" ∧
    (handleSquareClick pawnEngine selectedE2 6 3).selected ≠ some "d2" ∧
    (handleSquareClick pawnEngine selectedE2 6 3).historyFEN = selectedE2.historyFEN ∧
    (handleSquareClick pawnEngine selectedE2 6 3).pointer = selectedE2.pointer :=
  ⟨by decide, by decide, by decide, by decide, by decide, by decide, by decide, by decide⟩

/-! ## Two clicks on one square (C7) -/

/-- C7: from a state with no selection, two consecutive clicks on the same square give back
the state before the first click: the selection is empty again, `historyFEN`, `pointer` and
the engine are what they were, and the engine's `move` was not invoked by either click.
After the first click the selection is that square exactly when it holds a piece of the side
to move, and is empty otherwise. -/
theorem double_click_restores (E : Engine G F B) (s : State G F B) (r c : Nat)
    (hsel : s.selected = none) :
    (handleSquareClick E (handleSquareClick E s r c) r c).selected = none ∧
    (handleSquareClick E (handleSquareClick E s r c) r c).historyFEN = s.historyFEN ∧
    (handleSquareClick E (handleSquareClick E s r c) r c).pointer = s.pointer ∧
    (handleSquareClick E (handleSquareClick E s r c) r c).game = s.game ∧
    (handleSquareClick E s r c).game = s.game ∧
    (handleSquareClick E s r c).moveCalls = s.moveCalls ∧
    (handleSquareClick E (handleSquareClick E s r c) r c).moveCalls = s.moveCalls ∧
    handleSquareClick E (handleSquareClick E s r c) r c = s ∧
    ((handleSquareClick E s r c).selected = some (coordsToSquare r c) ↔
      ownPiece (E.get s.game (coordsToSquare r c)) (E.turn s.game) = true) ∧
    (ownPiece (E.get s.game (coordsToSquare r c)) (E.turn s.game) = false →
      (handleSquareClick E s r c).selected = none) := by
  by_cases hown : ownPiece (E.get s.game (coordsToSquare r c)) (E.turn s.game) = true
  · have h1 : handleSquareClick E s r c = { s with selected := some (coordsToSquare r c) } := by
      rw [click_of_none E s r c hsel, if_pos hown]
    have h2 : handleSquareClick E (handleSquareClick E s r c) r c = s := by
      rw [h1, click_of_same E _ r c rfl]
      cases s
      simp only [State.mk.injEq, and_true, true_and]
      exact hsel.symm
    rw [h2]
    rw [h1]
    exact ⟨hsel, rfl, rfl, rfl, rfl, rfl, rfl, rfl, ⟨fun _ => hown, fun _ => rfl⟩,
      fun hf => by rw [hown] at hf; cases hf⟩
  · have h1 : handleSquareClick E s r c = s := by
      rw [click_of_none E s r c hsel, if_neg hown]
    rw [h1, h1]
    refine ⟨hsel, rfl, rfl, rfl, rfl, rfl, rfl, rfl, ⟨?_, fun h => absurd h hown⟩,
      fun _ => hsel⟩
    intro h
    rw [hsel] at h
    cases h

theorem double_click_restores_witness :
    (init pawnEngine).selected = none ∧
    (handleSquareClick pawnEngine (init pawnEngine) 6 4).selected = some "e2" ∧
    handleSquareClick pawnEngine (handleSquareClick pawnEngine (init pawnEngine) 6 4) 6 4 =
      init pawnEngine ∧
    (handleSquareClick pawnEngine (handleSquareClick pawnEngine (init pawnEngine) 6 4)
      6 4).moveCalls = 0 :=
  ⟨by decide, by decide,
    (double_click_restores pawnEngine (init pawnEngine) 6 4 (by decide)).2.2.2.2.2.2.2.1,
    (double_click_restores pawnEngine (init pawnEngine) 6 4 (by decide)).2.2.2.2.2.2.1⟩

/-! ## Status text (C8) -/

/-- C8: `getStatusText` depends on the engine only through `isCheckmate`, `isStalemate`,
`isDraw`, `isCheck` and `turn`, and the first matching case wins in the order checkmate,
stalemate, draw, check, normal: on checkmate the winner named is the side not to move; then
"Stalemate."; then "Draw."; then the in-check text naming the side to move; then the plain
text naming the side to move. -/
theorem getStatusText_priority (E : Engine G F B) (g : G) :
    (E.isCheckmate g = true → E.turn g = Color.w →
      getStatusText E g = "Checkmate. Black wins.") ∧
    (E.isCheckmate g = true → E.turn g = Color.b →
      getStatusText E g = "Checkmate. White wins.") ∧
    (E.isCheckmate g = false → E.isStalemate g = true →
      getStatusText E g = "Stalemate.") ∧
    (E.isCheckmate g = false → E.isStalemate g = false → E.isDraw g = true →
      getStatusText E g = "Draw.") ∧
    (E.isCheckmate g = false → E.isStalemate g = false → E.isDraw g = false →
      E.isCheck g = true → E.turn g = Color.w →
      getStatusText E g = "White to move — in check.") ∧
    (E.isCheckmate g = false → E.isStalemate g = false → E.isDraw g = false →
      E.isCheck g = true → E.turn g = Color.b →
      getStatusText E g = "Black to move — in check.") ∧
    (E.isCheckmate g = false → E.isStalemate g = false → E.isDraw g = false →
      E.isCheck g = false → E.turn g = Color.w →
      getStatusText E g = "White to move.") ∧
    (E.isCheckmate g = false → E.isStalemate g = false → E.isDraw g = false →
      E.isCheck g = false → E.turn g = Color.b →
      getStatusText E g = "Black to move.") ∧
    (∀ (G2 F2 B2 : Type) (E2 : Engine G2 F2 B2) (g2 : G2),
      E2.isCheckmate g2 = E.isCheckmate g → E2.isStalemate g2 = E.isStalemate g →
      E2.isDraw g2 = E.isDraw g → E2.isCheck g2 = E.isCheck g → E2.turn g2 = E.turn g →
      getStatusText E2 g2 = getStatusText E g) := by
  refine ⟨?_, ?_, ?_, ?_, ?_, ?_, ?_, ?_, ?_⟩
  · intro h1 ht
    simp only [getStatusText, h1, ht, if_true]
    decide
  · intro h1 ht
    simp only [getStatusText, h1, ht, if_true]
    decide
  · intro h1 h2
    simp only [getStatusText, h1, h2, if_true, if_false, Bool.false_eq_true]
  · intro h1 h2 h3
    simp only [getStatusText, h1, h2, h3, if_true, if_false, Bool.false_eq_true]
  · intro h1 h2 h3 h4 ht
    simp only [getStatusText, h1, h2, h3, h4, ht, if_true, if_false, Bool.false_eq_true]
    decide
  · intro h1 h2 h3 h4 ht
    simp only [getStatusText, h1, h2, h3, h4, ht, if_true, if_false, Bool.false_eq_true]
    decide
  · intro h1 h2 h3 h4 ht
    simp only [getStatusText, h1, h2, h3, h4, ht, if_true, if_false, Bool.false_eq_true]
    decide
  · intro h1 h2 h3 h4 ht
    simp only [getStatusText, h1, h2, h3, h4, ht, if_true, if_false, Bool.false_eq_true]
    decide
  · intro G2 F2 B2 E2 g2 h1 h2 h3 h4 ht
    simp only [getStatusText, h1, h2, h3, h4, ht]

theorem getStatusText_priority_witness :
    pawnEngine.isCheckmate afterE4.game = false ∧ pawnEngine.turn afterE4.game = Color.b ∧
    getStatusText pawnEngine afterE4.game = "Black to move." ∧
    afterE4.status = "Black to move." :=
  ⟨by decide, by decide,
    (getStatusText_priority pawnEngine afterE4.game).2.2.2.2.2.2.2.1 (by decide) (by decide)
      (by decide) (by decide) (by decide),
    by decide⟩

/-! ## Coordinate mapping is a bijection (C9) -/

/-- C9: for every row and column in 0..7 `coordsToSquare` returns `files[col]` followed by
the rank `8 - row`, which lies in 1..8 (so (0,0) is "a8", (7,0) is "a1", (6,4) is "e2");
distinct (row, col) pairs of that range give distinct squares; and each of the 64 names made
of a file letter and a rank in 1..8 is the image of some (row, col) of that range. -/
theorem coordsToSquare_bijective (r c : Nat) (hr : r < 8) (hc : c < 8) :
    (∃ f : String, files[c]? = some f ∧ coordsToSquare r c = f ++ toString (8 - r)) ∧
    1 ≤ 8 - r ∧ 8 - r ≤ 8 ∧
    coordsToSquare 0 0 = "a8" ∧ coordsToSquare 7 0 = "a1" ∧ coordsToSquare 6 4 = "e2" ∧
    (∀ r2 c2 : Nat, r2 < 8 → c2 < 8 → coordsToSquare r c = coordsToSquare r2 c2 →
      r = r2 ∧ c = c2) ∧
    (∀ f : String, f ∈ files → ∀ k : Nat, 1 ≤ k → k ≤ 8 →
      ∃ r2 c2 : Nat, r2 < 8 ∧ c2 < 8 ∧ coordsToSquare r2 c2 = f ++ toString k) := by
  refine ⟨?_, by omega, by omega, by decide, by decide, by decide, ?_, ?_⟩
  · interval_cases r <;> interval_cases c <;> exact ⟨_, rfl, by decide⟩
  · intro r2 c2 hr2 hc2 heq
    have h1 := decodeSquare_coordsToSquare r c hr hc
    have h2 := decodeSquare_coordsToSquare r2 c2 hr2 hc2
    rw [heq, h2] at h1
    exact ⟨(Prod.mk.inj h1).1.symm, (Prod.mk.inj h1).2.symm⟩
  · intro f hf k hk1 hk8
    refine ⟨8 - k, files.indexOf f, by omega, ?_, ?_⟩
    · simp only [files, List.mem_cons, List.mem_singleton, List.not_mem_nil, or_false] at hf
      rcases hf with h | h | h | h | h | h | h | h <;> subst h <;> decide
    · simp only [files, List.mem_cons, List.mem_singleton, List.not_mem_nil, or_false] at hf
      rcases hf with h | h | h | h | h | h | h | h <;> subst h <;>
        interval_cases k <;> decide

theorem coordsToSquare_bijective_witness :
    (∃ f : String, files[4]? = some f ∧ coordsToSquare 6 4 = f ++ toString (8 - 6)) ∧
    (∀ r2 c2 : Nat, r2 < 8 → c2 < 8 → coordsToSquare 6 4 = coordsToSquare r2 c2 →
      6 = r2 ∧ 4 = c2) :=
  ⟨(coordsToSquare_bijective 6 4 (by decide) (by decide)).1,
    (coordsToSquare_bijective 6 4 (by decide) (by decide)).2.2.2.2.2.2.1⟩

end Chess
